import Mathlib

/-!
Verification development for the Tyrion-Lannister mock-interview platform
(`main.py`, `models.py`, `utils.py`).

The Python code is shallowly embedded: pure helpers become Lean functions,
the SQL/Mongo store becomes an explicit `DB` record threaded through the
endpoint functions, and each external collaborator call (Ollama text
generation, Whisper transcription, wall-clock time) becomes an explicit
parameter carrying that call's observable outcome, as the spec's
"black-box collaborator" model prescribes.  Machine integers are `Int`
(Python ints are unbounded, so no wrap-around modelling is needed).
-/

set_option maxRecDepth 8000

deriving instance DecidableEq for Except

namespace Tyrion

/-! ### Decimal rendering of naturals

Models Python's decimal formatting of a nonnegative `int` inside an
f-string (`f"...{i}..."`), used by the placeholder question text and the
report file name. -/

def digitChar (n : Nat) : Char := Char.ofNat (48 + n)

/-- Fuel-indexed digit expansion; the fuel only serves structural
recursion and `n` itself is always sufficient fuel. -/
def toDecimalAux : Nat → Nat → List Char
  | 0, n => [digitChar n]
  | fuel + 1, n =>
    if n < 10 then [digitChar n]
    else toDecimalAux fuel (n / 10) ++ [digitChar (n % 10)]

def toDecimal (n : Nat) : List Char := toDecimalAux n n

def natStr (n : Nat) : String := (toDecimal n).asString

/-- Left inverse of `toDecimal`, used to prove it injective. -/
def digitVal (c : Char) : Nat := c.toNat - 48

def ofDecimal (l : List Char) : Nat := l.foldl (fun a c => a * 10 + digitVal c) 0

/-! ### Python `str.split()` word counting (utils-free, `main.py` line 303)

`len(transcript.split())` splits on runs of whitespace with no empty
tokens, so it equals the number of maximal non-whitespace runs. -/

def isPySpace (c : Char) : Bool :=
  c = ' ' || c = '\t' || c = '\n' || c = '\r' || c = Char.ofNat 11 || c = Char.ofNat 12

/-- Number of maximal non-whitespace runs: `len(s.split())` in Python.
The fold carries (count so far, currently inside a word). -/
def wordCount (s : String) : Nat :=
  (s.toList.foldl
    (fun (acc : Nat × Bool) c =>
      if isPySpace c then (acc.1, false)
      else if acc.2 then acc else (acc.1 + 1, true))
    (0, false)).1

/-! ### `utils.py`: skill extraction -/

def KNOWN_SKILLS : List String :=
  ["python", "java", "c++", "c#", "javascript", "node", "react", "django", "flask",
   "sql", "mysql", "postgres", "mongodb", "aws", "docker", "kubernetes", "spring"]

/-- Python `re` word character (`\w`), restricted to ASCII, which covers
every character of `KNOWN_SKILLS` and of lower-cased ASCII résumé text. -/
def isWordChar (c : Char) : Bool := c.isAlphanum || c = '_'

def wordOf (o : Option Char) : Bool :=
  match o with
  | some c => isWordChar c
  | none => false

/-- Does `\b pat \b` match at the start of `rest`, where `prev` is the
character immediately before `rest` (`none` at the start of the text)?
`\b` holds at a position iff exactly one of its two neighbouring
characters is a word character (out-of-text counts as non-word). -/
def bMatchAt (pat rest : List Char) (prev : Option Char) : Bool :=
  pat.isPrefixOf rest
    && (wordOf prev != wordOf pat.head?)
    && (wordOf pat.getLast? != wordOf (rest.drop pat.length).head?)

/-- `re.search(r"\b" + re.escape(pat) + r"\b", text)`: does the
word-bounded literal pattern match anywhere? -/
def bSearch (pat : List Char) : Option Char → List Char → Bool
  | prev, [] => bMatchAt pat [] prev
  | prev, c :: cs => bMatchAt pat (c :: cs) prev || bSearch pat (some c) cs

def reSearchWord (pat text : String) : Bool := bSearch pat.toList none text.toList

/-- Python `str.lower()` (ASCII). -/
def pyLower (s : String) : String := (s.toList.map Char.toLower).asString

/-- Python `str.capitalize()`: first character upper-cased, the rest
lower-cased. -/
def pyCapitalize (s : String) : String :=
  match s.toList with
  | [] => ""
  | c :: cs => (c.toUpper :: cs.map Char.toLower).asString

/-- `utils.extract_skills_from_text`: lower-case the text, collect every
vocabulary label whose word-bounded pattern occurs, capitalized, in
vocabulary order; `["General"]` when nothing matches. -/
def extract_skills_from_text (text : String) : List String :=
  let textLow := pyLower text
  let found := (KNOWN_SKILLS.filter (fun s => reSearchWord s textLow)).map pyCapitalize
  if found.isEmpty then ["General"] else found

/-! ### Data model (`models.py`) -/

/-- One parsed item of the `questions` JSON array.  `question` is the
`"question"` key (required by every use site); `skill` and `maxScore`
model `q.get("skill")` / `q.get("max_score", ...)`, absent keys being
`none`. -/
structure QuestionSpec where
  question : String
  skill : Option String
  maxScore : Option Int
deriving DecidableEq

structure InterviewRow where
  id : Nat
  user_id : Nat
  questions : List QuestionSpec
deriving DecidableEq

structure AnswerRow where
  interview_id : Nat
  question_text : String
  answer_text : Option String
  skill : Option String
  max_score : Int
deriving DecidableEq

structure ScoreRow where
  interview_id : Nat
  skill : String
  score_obtained : Int
  score_total : Int
deriving DecidableEq

structure ReportRow where
  interview_id : Nat
  overall_score : ℚ
  pdf_path : String
deriving DecidableEq

/-- The persisted store: the four SQL tables plus the autoincrement
counter for interview ids.  Rows are kept in insertion order. -/
structure DB where
  interviews : List InterviewRow
  answers : List AnswerRow
  scores : List ScoreRow
  reports : List ReportRow
  nextInterviewId : Nat
deriving DecidableEq

inductive Err where
  | resumeMissing
  | notFound
  | invalidIndex
  | indexError
deriving DecidableEq

/-! ### Question generation (`main.py` `start_interview`) -/

/-- The fallback question set (`main.py` lines 217-223): 15 placeholder
items cycling round-robin through `skills`.  Python would raise
`ZeroDivisionError` on an empty `skills`; the call site guarantees it is
non-empty (`resume_doc.get("skills", []) or ["General"]`), and the `""`
default of `getD` is never reached there. -/
def fallbackQuestions (skills : List String) : List QuestionSpec :=
  (List.range 15).map (fun i =>
    { question := "Placeholder question #" ++ natStr (i + 1) ++ " for "
        ++ skills.getD (i % skills.length) ""
      skill := some (skills.getD (i % skills.length) "")
      maxScore := some 5 })

/-- `POST /interview/start`.  `resumeSkills` is the résumé document's
`skills` field (`none` when no résumé document exists); `genOutcome` is
the outcome of `ollama.chat` + `json.loads`: `some qs` when the response
parsed as a JSON array (used as-is, unvalidated), `none` when the call
threw or the content was not valid JSON. -/
def start_interview (db : DB) (uid : Nat) (resumeSkills : Option (List String))
    (genOutcome : Option (List QuestionSpec)) : Except Err (Nat × Nat × DB) :=
  match resumeSkills with
  | none => .error .resumeMissing
  | some rawSkills =>
    let skills := if rawSkills.isEmpty then ["General"] else rawSkills
    let qs :=
      match genOutcome with
      | some parsed => parsed
      | none => fallbackQuestions skills
    let iid := db.nextInterviewId
    let newAnswers := qs.map (fun q =>
      { interview_id := iid, question_text := q.question, answer_text := none,
        skill := q.skill, max_score := q.maxScore.getD 5 })
    .ok (iid, qs.length,
      { db with
        interviews := db.interviews ++ [{ id := iid, user_id := uid, questions := qs }]
        answers := db.answers ++ newAnswers
        nextInterviewId := iid + 1 })

/-! ### Interview-scoped lookups and Python list indexing -/

/-- `db.query(Interview).filter_by(id=interview_id, user_id=current_user.id).first()`. -/
def ownInterview (db : DB) (uid iid : Nat) : Option InterviewRow :=
  db.interviews.find? (fun r => r.id == iid && r.user_id == uid)

/-- Python list indexing `l[i]` for `int` i: nonnegative indices from the
front, negative indices from the end, `none` modelling `IndexError`. -/
def pyIndex {α : Type} (l : List α) (i : Int) : Option α :=
  if 0 ≤ i then l.get? i.toNat
  else if (-i).toNat ≤ l.length then l.get? (l.length - (-i).toNat)
  else none

/-! ### Answer evaluation (`main.py` `stt_endpoint` lines 293-304) -/

/-- Score/feedback selection.  `outcome = some (s, f)` models the success
path: `ollama.chat` returned content that `json.loads` parsed and whose
`score` field `int(...)` coerced to `s`, with feedback `f`
(`eval_json.get(...)` defaults already applied).  `outcome = none` models
any exception on that path, triggering the naive fallback
`min(5, max(0, len(transcript.split()) // 20))`. -/
def evalScore (transcript : String) (outcome : Option (Int × String)) : Int × String :=
  match outcome with
  | some (s, f) => (s, f)
  | none => (min 5 (max 0 ((wordCount transcript : Int) / 20)), "Automated fallback feedback.")

/-! ### Recording answers -/

/-- Mutate the first list element satisfying `p` by `f` (SQLAlchemy
`query.first()` followed by an attribute update on the returned row). -/
def updateFirst {α : Type} (p : α → Bool) (f : α → α) : List α → List α
  | [] => []
  | a :: as => if p a then f a :: as else a :: updateFirst p f as

def answerKey (iid : Nat) (qt : String) (a : AnswerRow) : Bool :=
  a.interview_id == iid && a.question_text == qt

/-- The Answer-table update of `stt_endpoint` (lines 277-285): overwrite
the first row keyed by (interview_id, question_text), creating one if
absent. -/
def recordAnswerRows (rows : List AnswerRow) (iid : Nat) (q : QuestionSpec)
    (t : String) : List AnswerRow :=
  let fresh : AnswerRow :=
    { interview_id := iid, question_text := q.question, answer_text := some t,
      skill := q.skill, max_score := q.maxScore.getD 5 }
  match rows.find? (answerKey iid q.question) with
  | none => rows ++ [fresh]
  | some _ => updateFirst (answerKey iid q.question) (fun a => { a with answer_text := some t }) rows

structure SttResp where
  transcript : String
  score : Int
  feedback : String
deriving DecidableEq

/-- `POST /stt`.  `transcript` is the Whisper output (empty on
transcription failure, per the except-branch); `evalOutcome` as in
`evalScore`. -/
def stt_endpoint (db : DB) (uid iid : Nat) (q_index : Int) (transcript : String)
    (evalOutcome : Option (Int × String)) : Except Err (SttResp × DB) :=
  match ownInterview db uid iid with
  | none => .error .notFound
  | some itv =>
    if (itv.questions.length : Int) ≤ q_index then .error .invalidIndex
    else
      match pyIndex itv.questions q_index with
      | none => .error .indexError
      | some q =>
        let answers' := recordAnswerRows db.answers iid q transcript
        let score := (evalScore transcript evalOutcome).1
        let feedback := (evalScore transcript evalOutcome).2
        let scoreRow : ScoreRow :=
          { interview_id := iid, skill := q.skill.getD "General",
            score_obtained := score, score_total := q.maxScore.getD 5 }
        .ok ({ transcript := transcript, score := score, feedback := feedback },
          { db with answers := answers', scores := db.scores ++ [scoreRow] })

/-! ### Question page (`GET /question/{interview_id}/{q_index}`) -/

inductive QPage where
  | redirectResult (iid : Nat)
  | page (q_index : Int) (question : String) (total : Nat)
deriving DecidableEq

def question_page (db : DB) (uid iid : Nat) (q_index : Int) : Except Err QPage :=
  match ownInterview db uid iid with
  | none => .error .notFound
  | some itv =>
    if (itv.questions.length : Int) ≤ q_index then .ok (.redirectResult iid)
    else
      match pyIndex itv.questions q_index with
      | none => .error .indexError
      | some q => .ok (.page q_index q.question itv.questions.length)

/-! ### Score aggregation (`GET /result1/{interview_id}` lines 320-330) -/

/-- One step of the `skill_map` accumulation: Python dict keys are unique
and keep insertion order, so the map is an association list updated at
its unique matching entry, appended to otherwise. -/
def addScore (m : List (String × Int × Int)) (s : ScoreRow) : List (String × Int × Int) :=
  match m with
  | [] => [(s.skill, s.score_obtained, s.score_total)]
  | p :: rest =>
    if p.1 = s.skill then (p.1, p.2.1 + s.score_obtained, p.2.2 + s.score_total) :: rest
    else p :: addScore rest s

def skillMapOf (scores : List ScoreRow) : List (String × Int × Int) :=
  scores.foldl addScore []

def smLookup (m : List (String × Int × Int)) (k : String) : Option (Int × Int) :=
  (m.find? (fun p => p.1 == k)).map (fun p => p.2)

def obtSum (m : List (String × Int × Int)) : Int := (m.map (fun p => p.2.1)).sum

def totSum (m : List (String × Int × Int)) : Int := (m.map (fun p => p.2.2)).sum

structure AggResult where
  skillMap : List (String × Int × Int)
  overallObtained : Int
  overallTotal : Int
  overallPct : ℚ
deriving DecidableEq

/-- The aggregation of `immediate_result`: group by skill in first-appearance
order, overall totals summed across the groups, percentage guarded by
`overall_total > 0`. -/
def aggregate (scores : List ScoreRow) : AggResult :=
  let m := skillMapOf scores
  let ob := obtSum m
  let tot := totSum m
  { skillMap := m, overallObtained := ob, overallTotal := tot,
    overallPct := if 0 < tot then (ob : ℚ) / (tot : ℚ) * 100 else 0 }

def immediate_result (db : DB) (uid iid : Nat) : Except Err AggResult :=
  match ownInterview db uid iid with
  | none => .error .notFound
  | some _ => .ok (aggregate (db.scores.filter (fun s => s.interview_id == iid)))

/-! ### Report generation (`POST /reports/generate`) -/

/-- The artifact path produced by `utils.generate_pdf_report`:
`os.path.join("reports", f"report_{interview_id}_{int(datetime.utcnow().timestamp())}.pdf")`,
with `ts` the integer-second timestamp observed by the call. -/
def pdfPath (iid ts : Nat) : String :=
  "reports/report_" ++ natStr iid ++ "_" ++ natStr ts ++ ".pdf"

def generate_report_api (db : DB) (uid iid : Nat) (ts : Nat) : Except Err (String × DB) :=
  match ownInterview db uid iid with
  | none => .error .notFound
  | some _ =>
    let scores := db.scores.filter (fun s => s.interview_id == iid)
    let total_obtained : Int := (scores.map (fun s => s.score_obtained)).sum
    let total_possible : Int := (scores.map (fun s => s.score_total)).sum
    let overall_pct : ℚ :=
      if 0 < total_possible then (total_obtained : ℚ) / (total_possible : ℚ) * 100 else 0
    let path := pdfPath iid ts
    .ok (path,
      { db with reports := db.reports ++
          [{ interview_id := iid, overall_score := overall_pct, pdf_path := path }] })

/-! ## Helper lemmas -/

/-! ### Decimal strings -/

theorem digitVal_digitChar {n : Nat} (h : n < 10) : digitVal (digitChar n) = n := by
  interval_cases n <;> decide

theorem ofDecimal_append (l : List Char) (c : Char) :
    ofDecimal (l ++ [c]) = ofDecimal l * 10 + digitVal c := by
  simp [ofDecimal, List.foldl_append]

theorem ofDecimal_toDecimalAux :
    ∀ fuel n, n ≤ fuel → ofDecimal (toDecimalAux fuel n) = n := by
  intro fuel
  induction fuel with
  | zero =>
    intro n hn
    have : n = 0 := by omega
    subst this
    simp [toDecimalAux, ofDecimal, digitVal, digitChar]
  | succ fuel ih =>
    intro n hn
    by_cases h : n < 10
    · simp only [toDecimalAux, h, if_pos]
      simpa [ofDecimal] using digitVal_digitChar h
    · simp only [toDecimalAux, h, if_neg, not_false_iff]
      rw [ofDecimal_append, ih (n / 10) (by omega),
        digitVal_digitChar (Nat.mod_lt _ (by omega))]
      omega

theorem ofDecimal_toDecimal (n : Nat) : ofDecimal (toDecimal n) = n :=
  ofDecimal_toDecimalAux n n le_rfl

theorem toDecimal_injective {a b : Nat} (h : toDecimal a = toDecimal b) : a = b := by
  have := congrArg ofDecimal h
  rwa [ofDecimal_toDecimal, ofDecimal_toDecimal] at this

theorem isDigit_of_mem_toDecimalAux :
    ∀ fuel n c, n ≤ fuel → c ∈ toDecimalAux fuel n → c.isDigit = true := by
  intro fuel
  induction fuel with
  | zero =>
    intro n c hn hc
    have : n = 0 := by omega
    subst this
    simp only [toDecimalAux, List.mem_singleton] at hc
    subst hc
    decide
  | succ fuel ih =>
    intro n c hn hc
    by_cases h : n < 10
    · simp only [toDecimalAux, h, if_pos, List.mem_singleton] at hc
      subst hc
      have h' : n < 10 := h
      interval_cases n <;> decide
    · simp only [toDecimalAux, h, if_neg, not_false_iff, List.mem_append,
        List.mem_singleton] at hc
      rcases hc with hc | hc
      · exact ih (n / 10) c (by omega) hc
      · subst hc
        have : n % 10 < 10 := Nat.mod_lt _ (by omega)
        interval_cases hm : n % 10 <;> decide

theorem isDigit_of_mem_toDecimal {n : Nat} {c : Char} (h : c ∈ toDecimal n) :
    c.isDigit = true :=
  isDigit_of_mem_toDecimalAux n n c le_rfl h

theorem takeWhile_append_of_all {p : Char → Bool} {l y : List Char} {c : Char}
    (hl : ∀ d ∈ l, p d = true) (hc : p c = false) :
    (l ++ c :: y).takeWhile p = l := by
  induction l with
  | nil => simp [List.takeWhile_cons, hc]
  | cons a as ih =>
    have ha : p a = true := hl a (by simp)
    simp only [List.cons_append, List.takeWhile_cons, ha]
    rw [ih (fun d hd => hl d (by simp [hd]))]
    simp

/-- Two decimal strings followed by the same non-digit separator character
determine their numbers: the key step behind both placeholder-question
distinctness and report-path distinctness. -/
theorem decimal_prefix_cancel {a b : Nat} {x y : List Char} {c : Char}
    (hc : c.isDigit = false)
    (h : toDecimal a ++ c :: x = toDecimal b ++ c :: y) : a = b := by
  have ha := takeWhile_append_of_all (p := Char.isDigit)
    (fun d hd => isDigit_of_mem_toDecimal (n := a) hd) hc (y := x)
  have hb := takeWhile_append_of_all (p := Char.isDigit)
    (fun d hd => isDigit_of_mem_toDecimal (n := b) hd) hc (y := y)
  have : toDecimal a = toDecimal b := by rw [← ha, ← hb, h]
  exact toDecimal_injective this

theorem data_asString (l : List Char) : (l.asString).data = l := rfl

theorem natStr_data (n : Nat) : (natStr n).data = toDecimal n := rfl

theorem placeholder_question_inj {i j : Nat} {s t : String}
    (h : ("Placeholder question #" ++ natStr (i + 1) ++ " for " ++ s)
       = ("Placeholder question #" ++ natStr (j + 1) ++ " for " ++ t)) : i = j := by
  have hdata := congrArg String.data h
  simp only [String.data_append, natStr_data, List.append_assoc] at hdata
  have hcut := List.append_cancel_left hdata
  have h1 : (" for " ++ s).data = ' ' :: ("for ".data ++ s.data) := by
    simp [String.data_append]
  have hx : " for ".data ++ s.data = ' ' :: ("for ".data ++ s.data) := rfl
  have hy : " for ".data ++ t.data = ' ' :: ("for ".data ++ t.data) := rfl
  rw [hx, hy] at hcut
  have := decimal_prefix_cancel (c := ' ') (by decide) hcut
  omega

theorem fallbackQuestions_question_nodup (skills : List String) :
    ((fallbackQuestions skills).map (fun q => q.question)).Nodup := by
  have hmap : ((fallbackQuestions skills).map (fun q => q.question))
      = (List.range 15).map (fun i => "Placeholder question #" ++ natStr (i + 1) ++ " for "
          ++ skills.getD (i % skills.length) "") := by
    simp only [fallbackQuestions, List.map_map]
    rfl
  rw [hmap]
  refine List.Nodup.map_on ?_ (List.nodup_range 15)
  intro i _ j _ heq
  exact placeholder_question_inj heq

theorem pdfPath_inj_ts {m t1 t2 : Nat} (h : pdfPath m t1 = pdfPath m t2) : t1 = t2 := by
  have hdata := congrArg String.data h
  simp only [pdfPath, String.data_append, natStr_data, List.append_assoc] at hdata
  have h1 := List.append_cancel_left hdata
  have h2 := List.append_cancel_left h1
  have hx : ("_".data : List Char) ++ (toDecimal t1 ++ ".pdf".data)
      = '_' :: (toDecimal t1 ++ ".pdf".data) := rfl
  have hy : ("_".data : List Char) ++ (toDecimal t2 ++ ".pdf".data)
      = '_' :: (toDecimal t2 ++ ".pdf".data) := rfl
  rw [hx, hy] at h2
  have h3 : toDecimal t1 ++ ".pdf".data = toDecimal t2 ++ ".pdf".data := by
    injection h2
  have hz : (".pdf".data : List Char) = '.' :: "pdf".data := rfl
  rw [hz] at h3
  exact decimal_prefix_cancel (c := '.') (by decide) h3

/-! ### `updateFirst` and `recordAnswerRows` -/

theorem updateFirst_length {α : Type} (p : α → Bool) (f : α → α) (l : List α) :
    (updateFirst p f l).length = l.length := by
  induction l with
  | nil => rfl
  | cons a as ih =>
    by_cases h : p a <;> simp [updateFirst, h, ih]

theorem find?_updateFirst {α : Type} (p : α → Bool) (f : α → α) (l : List α)
    (hpf : ∀ a, p (f a) = p a) :
    (updateFirst p f l).find? p = (l.find? p).map f := by
  induction l with
  | nil => rfl
  | cons a as ih =>
    by_cases h : p a
    · simp [updateFirst, h, List.find?_cons, hpf]
    · simp [updateFirst, h, List.find?_cons, ih]

theorem filter_updateFirst_of_disjoint {α : Type} {p q : α → Bool} {f : α → α} (l : List α)
    (hpq : ∀ a, p a = true → q a = false) (hqf : ∀ a, q (f a) = q a) :
    (updateFirst p f l).filter q = l.filter q := by
  induction l with
  | nil => rfl
  | cons a as ih =>
    by_cases h : p a
    · have hqa : q a = false := hpq a h
      simp [updateFirst, h, List.filter_cons, hqa, hqf]
    · by_cases hq : q a <;> simp [updateFirst, h, List.filter_cons, hq, ih]

theorem filter_updateFirst_le {α : Type} (p q : α → Bool) (f : α → α) (l : List α) :
    ((updateFirst p f l).filter q).length ≤ (l.filter q).length + 1 := by
  induction l with
  | nil => simp [updateFirst]
  | cons a as ih =>
    by_cases h : p a
    · by_cases hq : q (f a) <;> by_cases hqa : q a <;>
        simp [updateFirst, h, List.filter_cons, hq, hqa] <;> omega
    · by_cases hqa : q a <;> simp [updateFirst, h, List.filter_cons, hqa] <;> omega

/-- The shape of `recordAnswerRows` when a row already exists. -/
theorem recordAnswerRows_of_found {rows : List AnswerRow} {iid : Nat} {q : QuestionSpec}
    {t : String} {a0 : AnswerRow}
    (hfind : rows.find? (answerKey iid q.question) = some a0) :
    recordAnswerRows rows iid q t
      = updateFirst (answerKey iid q.question) (fun a => { a with answer_text := some t }) rows := by
  unfold recordAnswerRows
  rw [hfind]

/-- The shape of `recordAnswerRows` when no row exists yet. -/
theorem recordAnswerRows_of_missing {rows : List AnswerRow} {iid : Nat} {q : QuestionSpec}
    {t : String}
    (hfind : rows.find? (answerKey iid q.question) = none) :
    recordAnswerRows rows iid q t
      = rows ++ [AnswerRow.mk iid q.question (some t) q.skill (q.maxScore.getD 5)] := by
  unfold recordAnswerRows
  rw [hfind]

theorem find?_recordAnswerRows_self (rows : List AnswerRow) (iid : Nat) (q : QuestionSpec)
    (t : String) :
    ∃ a, (recordAnswerRows rows iid q t).find? (answerKey iid q.question) = some a
      ∧ a.answer_text = some t ∧ a.interview_id = iid ∧ a.question_text = q.question := by
  cases hfind : rows.find? (answerKey iid q.question) with
  | none =>
    refine ⟨AnswerRow.mk iid q.question (some t) q.skill (q.maxScore.getD 5), ?_, rfl, rfl, rfl⟩
    rw [recordAnswerRows_of_missing hfind, List.find?_append, hfind]
    simp [List.find?_cons, answerKey]
  | some a0 =>
    have hkey := List.find?_some hfind
    simp only [answerKey, Bool.and_eq_true, beq_iff_eq] at hkey
    refine ⟨{ a0 with answer_text := some t }, ?_, rfl, hkey.1, hkey.2⟩
    rw [recordAnswerRows_of_found hfind,
      find?_updateFirst (answerKey iid q.question)
        (fun a => { a with answer_text := some t }) rows (fun a => rfl), hfind]
    rfl

theorem recordAnswerRows_length (rows : List AnswerRow) (iid : Nat) (q : QuestionSpec)
    (t : String) :
    (recordAnswerRows rows iid q t).length =
      if (rows.find? (answerKey iid q.question)).isSome
      then rows.length else rows.length + 1 := by
  cases hfind : rows.find? (answerKey iid q.question) with
  | none => rw [recordAnswerRows_of_missing hfind]; simp
  | some a0 => rw [recordAnswerRows_of_found hfind]; simp [updateFirst_length]

theorem filter_recordAnswerRows_other (rows : List AnswerRow) (iid : Nat) (q : QuestionSpec)
    (t : String) :
    (recordAnswerRows rows iid q t).filter (fun a => a.interview_id != iid)
      = rows.filter (fun a => a.interview_id != iid) := by
  cases hfind : rows.find? (answerKey iid q.question) with
  | none =>
    rw [recordAnswerRows_of_missing hfind]
    simp [List.filter_append]
  | some a0 =>
    rw [recordAnswerRows_of_found hfind]
    refine filter_updateFirst_of_disjoint _ ?_ ?_
    · intro a ha
      rw [answerKey, Bool.and_eq_true, beq_iff_eq, beq_iff_eq] at ha
      simp [bne, ha.1]
    · intro a
      rfl

/-! ### Aggregation lemmas -/

/-- Spec-side per-skill sum of obtained points: the direct sum over the
entries of a given skill. -/
def sObt (l : List ScoreRow) (k : String) : Int :=
  ((l.filter (fun s => s.skill == k)).map (fun s => s.score_obtained)).sum

/-- Spec-side per-skill sum of total points. -/
def sTot (l : List ScoreRow) (k : String) : Int :=
  ((l.filter (fun s => s.skill == k)).map (fun s => s.score_total)).sum

/-- Spec-side first-appearance deduplication, the output order of the
per-skill mapping. -/
def firstKeys : List String → List String
  | [] => []
  | k :: kl => k :: firstKeys (kl.filter (fun k2 => k2 != k))
  termination_by l => l.length
  decreasing_by
    exact Nat.lt_succ_of_le (List.length_filter_le _ _)

def smKeys (m : List (String × Int × Int)) : List String := m.map Prod.fst

theorem obtSum_addScore (m : List (String × Int × Int)) (s : ScoreRow) :
    obtSum (addScore m s) = obtSum m + s.score_obtained := by
  induction m with
  | nil => simp [addScore, obtSum]
  | cons p rest ih =>
    by_cases h : p.1 = s.skill
    · simp only [addScore, h, if_pos, obtSum, List.map_cons, List.sum_cons]
      simp [obtSum] at ih ⊢
      omega
    · simp only [addScore, h, if_neg, not_false_iff, obtSum, List.map_cons, List.sum_cons]
      simp only [obtSum] at ih
      omega

theorem totSum_addScore (m : List (String × Int × Int)) (s : ScoreRow) :
    totSum (addScore m s) = totSum m + s.score_total := by
  induction m with
  | nil => simp [addScore, totSum]
  | cons p rest ih =>
    by_cases h : p.1 = s.skill
    · simp only [addScore, h, if_pos, totSum, List.map_cons, List.sum_cons]
      simp [totSum] at ih ⊢
      omega
    · simp only [addScore, h, if_neg, not_false_iff, totSum, List.map_cons, List.sum_cons]
      simp only [totSum] at ih
      omega

theorem smKeys_addScore (m : List (String × Int × Int)) (s : ScoreRow) :
    smKeys (addScore m s) =
      if m.any (fun p => p.1 == s.skill) then smKeys m else smKeys m ++ [s.skill] := by
  induction m with
  | nil => simp [addScore, smKeys]
  | cons p rest ih =>
    by_cases h : p.1 = s.skill
    · simp [addScore, h, smKeys]
    · have hb : (p.1 == s.skill) = false := beq_false_of_ne h
      have hstep : addScore (p :: rest) s = p :: addScore rest s := by
        simp [addScore, h]
      rw [hstep]
      have hkeys : smKeys (p :: addScore rest s) = p.1 :: smKeys (addScore rest s) := rfl
      have hany' : ((p :: rest).any (fun p => p.1 == s.skill))
          = rest.any (fun p => p.1 == s.skill) := by
        simp [List.any_cons, hb]
      rw [hkeys, hany', ih]
      by_cases hany : rest.any (fun p => p.1 == s.skill)
      · simp [hany, smKeys]
      · have hany0 : rest.any (fun p => p.1 == s.skill) = false := by
          cases hx : rest.any (fun p => p.1 == s.skill)
          · rfl
          · exact absurd hx hany
        simp [hany0, smKeys]

theorem smLookup_addScore (m : List (String × Int × Int)) (s : ScoreRow) (k : String) :
    smLookup (addScore m s) k =
      if k = s.skill then
        match smLookup m k with
        | some (o, c) => some (o + s.score_obtained, c + s.score_total)
        | none => some (s.score_obtained, s.score_total)
      else smLookup m k := by
  induction m with
  | nil =>
    by_cases h : k = s.skill
    · have : (s.skill == k) = true := by simp [h]
      simp [addScore, smLookup, List.find?_cons, this, h]
    · have : (s.skill == k) = false := beq_false_of_ne (fun hc => h hc.symm)
      simp [addScore, smLookup, List.find?_cons, this, h]
  | cons p rest ih =>
    by_cases h : p.1 = s.skill
    · by_cases hk : k = s.skill
      · have hb : (p.1 == k) = true := by simp [h, hk]
        simp [addScore, h, smLookup, List.find?_cons, hb, hk]
      · have hb : (p.1 == k) = false := by
          refine beq_false_of_ne ?_
          rw [h]
          exact fun hc => hk hc.symm
        have hs : (s.skill == k) = false := beq_false_of_ne (fun hc => hk hc.symm)
        simp [addScore, h, smLookup, List.find?_cons, hb, hs, hk]
    · by_cases hpk : p.1 = k
      · have hb : (p.1 == k) = true := by simp [hpk]
        have hk : ¬ k = s.skill := by rw [← hpk]; exact fun hc => h hc
        simp [addScore, h, smLookup, List.find?_cons, hb, hk]
      · have hb : (p.1 == k) = false := beq_false_of_ne hpk
        simp only [addScore, h, if_neg, not_false_iff]
        simp only [smLookup, List.find?_cons, hb] at ih ⊢
        exact ih

theorem sObt_cons (s : ScoreRow) (l : List ScoreRow) (k : String) :
    sObt (s :: l) k = if s.skill = k then s.score_obtained + sObt l k else sObt l k := by
  by_cases h : s.skill = k
  · have : (s.skill == k) = true := by simp [h]
    simp [sObt, List.filter_cons, this, h]
  · have : (s.skill == k) = false := beq_false_of_ne h
    simp [sObt, List.filter_cons, this, h]

theorem sTot_cons (s : ScoreRow) (l : List ScoreRow) (k : String) :
    sTot (s :: l) k = if s.skill = k then s.score_total + sTot l k else sTot l k := by
  by_cases h : s.skill = k
  · have : (s.skill == k) = true := by simp [h]
    simp [sTot, List.filter_cons, this, h]
  · have : (s.skill == k) = false := beq_false_of_ne h
    simp [sTot, List.filter_cons, this, h]

theorem smLookup_foldl_addScore (l : List ScoreRow) (k : String) :
    ∀ m, smLookup (l.foldl addScore m) k =
      match smLookup m k with
      | some (o, c) => some (o + sObt l k, c + sTot l k)
      | none =>
        if l.any (fun s => s.skill == k) then some (sObt l k, sTot l k) else none := by
  induction l with
  | nil =>
    intro m
    cases hm : smLookup m k with
    | none => simp [sObt, sTot, hm]
    | some oc => rcases oc with ⟨o, c⟩; simp [sObt, sTot, hm]
  | cons s l ih =>
    intro m
    rw [List.foldl_cons, ih (addScore m s), smLookup_addScore]
    by_cases hk : k = s.skill
    · subst hk
      cases hm : smLookup m s.skill with
      | none =>
        simp [hm, List.any_cons, sObt_cons, sTot_cons]
      | some oc =>
        rcases oc with ⟨o, c⟩
        simp [hm, sObt_cons, sTot_cons]
        omega
    · have hsk : ¬ s.skill = k := fun hc => hk hc.symm
      have hb : (s.skill == k) = false := beq_false_of_ne hsk
      cases hm : smLookup m k with
      | none =>
        simp [hk, hm, List.any_cons, hb, sObt_cons, sTot_cons, hsk]
      | some oc =>
        rcases oc with ⟨o, c⟩
        simp only [hk, if_neg, not_false_iff, hm]
        simp [sObt_cons, sTot_cons, hsk]

theorem obtSum_foldl_addScore (l : List ScoreRow) :
    ∀ m, obtSum (l.foldl addScore m) = obtSum m + (l.map (fun s => s.score_obtained)).sum := by
  induction l with
  | nil => intro m; simp
  | cons s l ih =>
    intro m
    rw [List.foldl_cons, ih (addScore m s), obtSum_addScore]
    simp only [List.map_cons, List.sum_cons]
    omega

theorem totSum_foldl_addScore (l : List ScoreRow) :
    ∀ m, totSum (l.foldl addScore m) = totSum m + (l.map (fun s => s.score_total)).sum := by
  induction l with
  | nil => intro m; simp
  | cons s l ih =>
    intro m
    rw [List.foldl_cons, ih (addScore m s), totSum_addScore]
    simp only [List.map_cons, List.sum_cons]
    omega

/-- Insertion of a key into the running key list, as `addScore` does it. -/
def insKey (ks : List String) (k : String) : List String :=
  if ks.any (fun k2 => k2 == k) then ks else ks ++ [k]

theorem any_smKeys (m : List (String × Int × Int)) (k : String) :
    (smKeys m).any (fun k2 => k2 == k) = m.any (fun p => p.1 == k) := by
  induction m with
  | nil => rfl
  | cons a as ih =>
    simp only [smKeys, List.map_cons, List.any_cons] at ih ⊢
    rw [ih]

theorem smKeys_foldl_addScore (l : List ScoreRow) :
    ∀ m, smKeys (l.foldl addScore m) = (l.map (fun s => s.skill)).foldl insKey (smKeys m) := by
  induction l with
  | nil => intro m; simp
  | cons s l ih =>
    intro m
    rw [List.foldl_cons, List.map_cons, List.foldl_cons, ih (addScore m s), smKeys_addScore]
    congr 1
    rw [insKey, any_smKeys]

theorem foldl_insKey_eq_firstKeys (kl : List String) :
    ∀ ks, kl.foldl insKey ks
      = ks ++ firstKeys (kl.filter (fun k => !(ks.any (fun k2 => k2 == k)))) := by
  induction kl with
  | nil => intro ks; simp [firstKeys]
  | cons k kl ih =>
    intro ks
    rw [List.foldl_cons]
    by_cases h : ks.any (fun k2 => k2 == k)
    · rw [insKey, if_pos h, ih ks, List.filter_cons]
      simp [h]
    · have hfalse : ks.any (fun k2 => k2 == k) = false := by
        cases hx : ks.any (fun k2 => k2 == k)
        · rfl
        · exact absurd hx h
      have hif : (k :: kl).filter (fun x => !(ks.any (fun k2 => k2 == x)))
          = k :: kl.filter (fun x => !(ks.any (fun k2 => k2 == x))) := by
        rw [List.filter_cons]
        simp [hfalse]
      have hcong : kl.filter (fun x => !((ks ++ [k]).any (fun k2 => k2 == x)))
          = kl.filter (fun x => (x != k) && !(ks.any (fun k2 => k2 == x))) := by
        refine List.filter_congr ?_
        intro x _
        by_cases hxk : x = k
        · subst hxk
          simp [List.any_append]
        · have h1 : (x == k) = false := beq_false_of_ne hxk
          have h2 : (k == x) = false := beq_false_of_ne (Ne.symm hxk)
          simp [List.any_append, h1, h2, bne]
      rw [insKey, if_neg h, ih (ks ++ [k]), hif, firstKeys, List.filter_filter, hcong,
        List.append_assoc]
      rfl

/-! ### Concrete fixtures used by witnesses and counterexamples -/

/-- The empty store (fresh database, autoincrement at 1). -/
def db0 : DB := DB.mk [] [] [] [] 1

/-- The store after user 1 starts an interview on the fallback path with
skills `["Python"]`. -/
def dbP : DB :=
  match start_interview db0 1 (some ["Python"]) none with
  | .ok x => x.2.2
  | .error _ => db0

/-- The interview row stored in `dbP`. -/
def itvP : InterviewRow := InterviewRow.mk 1 1 (fallbackQuestions ["Python"])

theorem ownInterview_dbP : ownInterview dbP 1 1 = some itvP := by decide

/-- Ownership facts recovered from a successful interview lookup. -/
theorem ownInterview_some {db : DB} {uid iid : Nat} {itv : InterviewRow}
    (h : ownInterview db uid iid = some itv) : itv.id = iid ∧ itv.user_id = uid := by
  have := List.find?_some h
  simpa [Bool.and_eq_true, beq_iff_eq] using this

/-! ## Claim theorems -/

/-- C1, counterexample: on the success path the evaluator returns the
externally supplied score unclamped; a parsed score of 7 is returned as 7,
outside `[0, 5]`, refuting "score in `[0, max_score]` on both paths". -/
theorem C1_counterexample :
    (evalScore "" (some (7, "ok"))).1 = 7
    ∧ ¬ (0 ≤ (evalScore "" (some (7, "ok"))).1 ∧ (evalScore "" (some (7, "ok"))).1 ≤ 5) := by
  decide

/-- C1, amended: on the fallback path the score is an integer in `[0, 5]`
(and the feedback is the fixed fallback text); on the success path the
score is exactly the integer coerced from the external JSON, with no
clamping. -/
theorem C1_eval_score_range (t : String) (o : Option (Int × String)) :
    (o = none →
      0 ≤ (evalScore t o).1 ∧ (evalScore t o).1 ≤ 5
      ∧ (evalScore t o).2 = "Automated fallback feedback.")
    ∧ (∀ s f, o = some (s, f) → evalScore t o = (s, f)) := by
  constructor
  · intro ho
    subst ho
    refine ⟨?_, ?_, rfl⟩ <;> simp only [evalScore] <;> omega
  · intro s f ho
    subst ho
    rfl

theorem C1_witness :
    (0 ≤ (evalScore "hello world" none).1 ∧ (evalScore "hello world" none).1 ≤ 5
      ∧ (evalScore "hello world" none).2 = "Automated fallback feedback.")
    ∧ evalScore "" (some (3, "fine")) = (3, "fine") :=
  ⟨(C1_eval_score_range "hello world" none).1 rfl,
   (C1_eval_score_range "" (some (3, "fine"))).2 3 "fine" rfl⟩

/-- C2: on the fallback path the generator returns exactly 15 items;
item `i` carries skill `skills[i % len(skills)]`, question text
`"Placeholder question #{i+1} for {skill}"`, and `max_score = 5`.  The
function is total (deterministic, never fails) for the non-empty skill
lists the call site supplies. -/
theorem C2_fallback_questions (skills : List String) (h : skills ≠ []) :
    (fallbackQuestions skills).length = 15
    ∧ (∀ i : Nat, i < 15 → ∃ sk, skills.get? (i % skills.length) = some sk
        ∧ (fallbackQuestions skills).get? i
          = some (QuestionSpec.mk
              ("Placeholder question #" ++ natStr (i + 1) ++ " for " ++ sk) (some sk) (some 5)))
    ∧ (∀ db uid rawSkills, ∃ m db2,
        start_interview db uid (some rawSkills) none = .ok (m, 15, db2)) := by
  refine ⟨?_, ?_, ?_⟩
  · simp [fallbackQuestions]
  · intro i hi
    have hlen : 0 < skills.length := List.length_pos.mpr h
    cases hx : skills.get? (i % skills.length) with
    | none =>
      exfalso
      rw [List.get?_eq_none] at hx
      have := Nat.mod_lt i hlen
      omega
    | some v =>
      have hgd : skills.getD (i % skills.length) "" = v := by
        rw [List.get?_eq_getElem?] at hx
        simp [List.getD, hx]
      refine ⟨v, rfl, ?_⟩
      have hitem : (fallbackQuestions skills).get? i
          = some (QuestionSpec.mk
              ("Placeholder question #" ++ natStr (i + 1) ++ " for "
                ++ skills.getD (i % skills.length) "")
              (some (skills.getD (i % skills.length) "")) (some 5)) := by
        rw [fallbackQuestions, List.get?_map, List.get?_range hi]
        rfl
      rw [hgd] at hitem
      exact hitem
  · intro db uid rawSkills
    refine ⟨db.nextInterviewId,
      { db with
        interviews := db.interviews ++ [InterviewRow.mk db.nextInterviewId uid
          (fallbackQuestions (if rawSkills.isEmpty then ["General"] else rawSkills))]
        answers := db.answers
          ++ (fallbackQuestions (if rawSkills.isEmpty then ["General"] else rawSkills)).map
            (fun q => AnswerRow.mk db.nextInterviewId q.question none q.skill (q.maxScore.getD 5))
        nextInterviewId := db.nextInterviewId + 1 }, ?_⟩
    simp only [start_interview]
    have hl : (fallbackQuestions (if rawSkills.isEmpty then ["General"] else rawSkills)).length
        = 15 := by
      simp [fallbackQuestions]
    rw [hl]

theorem C2_witness :
    (fallbackQuestions ["Python"]).length = 15
    ∧ ∃ sk, (["Python"] : List String).get? (0 % (["Python"] : List String).length) = some sk
        ∧ (fallbackQuestions ["Python"]).get? 0
          = some (QuestionSpec.mk
              ("Placeholder question #" ++ natStr (0 + 1) ++ " for " ++ sk) (some sk) (some 5)) :=
  ⟨(C2_fallback_questions ["Python"] (by decide)).1,
   (C2_fallback_questions ["Python"] (by decide)).2.1 0 (by decide)⟩

/-- C3: aggregation sums obtained and total points independently per skill
group, the overall totals equal the sums over all entries, the per-skill
group order is first-appearance order, the percentage is
`obtained / total * 100` when `total > 0` and `0` otherwise, and the empty
input yields the all-zero result with an empty mapping. -/
theorem C3_aggregate_correct (scores : List ScoreRow) :
    (aggregate scores).overallObtained = (scores.map (fun s => s.score_obtained)).sum
    ∧ (aggregate scores).overallTotal = (scores.map (fun s => s.score_total)).sum
    ∧ smKeys (aggregate scores).skillMap = firstKeys (scores.map (fun s => s.skill))
    ∧ (∀ k, smLookup (aggregate scores).skillMap k =
        if scores.any (fun s => s.skill == k) then some (sObt scores k, sTot scores k) else none)
    ∧ (0 < (aggregate scores).overallTotal →
        (aggregate scores).overallPct
          = ((aggregate scores).overallObtained : ℚ) / ((aggregate scores).overallTotal : ℚ) * 100)
    ∧ ((aggregate scores).overallTotal ≤ 0 → (aggregate scores).overallPct = 0)
    ∧ aggregate [] = AggResult.mk [] 0 0 0 := by
  have hob : (aggregate scores).overallObtained = (scores.map (fun s => s.score_obtained)).sum := by
    have := obtSum_foldl_addScore scores []
    simpa [aggregate, skillMapOf, obtSum] using this
  have htot : (aggregate scores).overallTotal = (scores.map (fun s => s.score_total)).sum := by
    have := totSum_foldl_addScore scores []
    simpa [aggregate, skillMapOf, totSum] using this
  refine ⟨hob, htot, ?_, ?_, ?_, ?_, ?_⟩
  · have h1 := smKeys_foldl_addScore scores ([] : List (String × Int × Int))
    have h2 := foldl_insKey_eq_firstKeys (scores.map (fun s => s.skill)) (smKeys [])
    rw [h2] at h1
    simpa [aggregate, skillMapOf, smKeys] using h1
  · intro k
    have := smLookup_foldl_addScore scores k []
    simpa [aggregate, skillMapOf, smLookup] using this
  · intro h
    have h' : 0 < totSum (skillMapOf scores) := h
    simp only [aggregate] at *
    rw [if_pos h']
  · intro h
    have h' : ¬ 0 < totSum (skillMapOf scores) := by
      simp only [aggregate] at h
      omega
    simp only [aggregate] at *
    rw [if_neg h']
  · decide

theorem C3_witness :
    (aggregate [ScoreRow.mk 1 "Python" 3 5, ScoreRow.mk 1 "Sql" 2 5,
        ScoreRow.mk 1 "Python" 1 5]).overallPct
      = ((aggregate [ScoreRow.mk 1 "Python" 3 5, ScoreRow.mk 1 "Sql" 2 5,
          ScoreRow.mk 1 "Python" 1 5]).overallObtained : ℚ)
        / ((aggregate [ScoreRow.mk 1 "Python" 3 5, ScoreRow.mk 1 "Sql" 2 5,
          ScoreRow.mk 1 "Python" 1 5]).overallTotal : ℚ) * 100 :=
  (C3_aggregate_correct [ScoreRow.mk 1 "Python" 3 5, ScoreRow.mk 1 "Sql" 2 5,
    ScoreRow.mk 1 "Python" 1 5]).2.2.2.2.1 (by decide)

/-- C4: when the external evaluation fails, the fallback computes
`min(5, max(0, word_count(transcript) // 20))` with the fixed feedback
text; an empty transcript scores 0, a 40-word transcript scores 2, and a
200-word transcript scores 5. -/
theorem C4_evaluator_fallback :
    (∀ t, evalScore t none
      = (min 5 (max 0 ((wordCount t : Int) / 20)), "Automated fallback feedback."))
    ∧ (evalScore "" none).1 = 0
    ∧ (evalScore (String.join (List.replicate 40 "word ")) none).1 = 2
    ∧ (evalScore (String.join (List.replicate 200 "word ")) none).1 = 5 := by
  refine ⟨fun t => rfl, by decide, by decide, by decide⟩

/-- All seventeen vocabulary labels capitalize to something other than
`"General"`. -/
theorem general_not_capitalized : ∀ s ∈ KNOWN_SKILLS, pyCapitalize s ≠ "General" := by
  decide

/-- C5: skill extraction always returns a non-empty list; it returns
exactly `["General"]` precisely when no vocabulary label matches
word-bounded in the lower-cased text; every matching label contributes its
capitalization; and any non-`General` result lists capitalized labels in
vocabulary order (an order-preserving sublist of the capitalized
vocabulary). -/
theorem C5_extract_skills (text : String) :
    extract_skills_from_text text ≠ []
    ∧ ((∀ s ∈ KNOWN_SKILLS, reSearchWord s (pyLower text) = false) ↔
        extract_skills_from_text text = ["General"])
    ∧ (∀ s ∈ KNOWN_SKILLS, reSearchWord s (pyLower text) = true →
        pyCapitalize s ∈ extract_skills_from_text text)
    ∧ (extract_skills_from_text text = ["General"] ∨
        (extract_skills_from_text text).Sublist (KNOWN_SKILLS.map pyCapitalize)) := by
  have hdef : extract_skills_from_text text =
      if ((KNOWN_SKILLS.filter (fun s => reSearchWord s (pyLower text))).map pyCapitalize).isEmpty
      then ["General"]
      else (KNOWN_SKILLS.filter (fun s => reSearchWord s (pyLower text))).map pyCapitalize := rfl
  by_cases hemp :
      ((KNOWN_SKILLS.filter (fun s => reSearchWord s (pyLower text))).map pyCapitalize).isEmpty
  · have hres : extract_skills_from_text text = ["General"] := by rw [hdef, if_pos hemp]
    have hnil : (KNOWN_SKILLS.filter (fun s => reSearchWord s (pyLower text))) = [] := by
      rw [List.isEmpty_iff, List.map_eq_nil] at hemp
      exact hemp
    refine ⟨by rw [hres]; exact (by decide), ?_, ?_, Or.inl hres⟩
    · constructor
      · intro _
        exact hres
      · intro _ s hs
        have := (List.filter_eq_nil.mp hnil) s hs
        cases hx : reSearchWord s (pyLower text)
        · rfl
        · exact absurd hx this
    · intro s hs hmatch
      exfalso
      have := (List.filter_eq_nil.mp hnil) s hs
      exact this hmatch
  · have hres : extract_skills_from_text text
        = (KNOWN_SKILLS.filter (fun s => reSearchWord s (pyLower text))).map pyCapitalize := by
      rw [hdef, if_neg hemp]
    have hne : (KNOWN_SKILLS.filter (fun s => reSearchWord s (pyLower text))).map pyCapitalize
        ≠ [] := by
      intro hc
      rw [List.isEmpty_iff] at hemp
      exact hemp hc
    have hmem : ∀ s ∈ KNOWN_SKILLS, reSearchWord s (pyLower text) = true →
        pyCapitalize s ∈ extract_skills_from_text text := by
      intro s hs hmatch
      rw [hres]
      exact List.mem_map_of_mem pyCapitalize (List.mem_filter.mpr ⟨hs, hmatch⟩)
    refine ⟨by rw [hres]; exact hne, ?_, hmem, ?_⟩
    · constructor
      · intro hall
        exfalso
        apply hne
        rw [List.filter_eq_nil.mpr]
        · rfl
        · intro s hs
          rw [hall s hs]
          exact (by decide)
      · intro hgen
        exfalso
        rw [hres] at hgen
        have : "General" ∈ (KNOWN_SKILLS.filter
            (fun s => reSearchWord s (pyLower text))).map pyCapitalize := by
          rw [hgen]
          exact List.mem_singleton_self "General"
        rcases List.mem_map.mp this with ⟨s, hsf, hcap⟩
        have hsk : s ∈ KNOWN_SKILLS := (List.mem_filter.mp hsf).1
        exact general_not_capitalized s hsk hcap
    · right
      rw [hres]
      exact (List.filter_sublist KNOWN_SKILLS).map pyCapitalize

theorem C5_witness :
    pyCapitalize "python" ∈ extract_skills_from_text "I know Python and SQL." :=
  (C5_extract_skills "I know Python and SQL.").2.2.1 "python" (by decide) (by decide)

/-- Result pair of a successful `stt_endpoint` call on question `q`. -/
def sttResult (db : DB) (iid : Nat) (q : QuestionSpec) (t : String)
    (e : Option (Int × String)) : SttResp × DB :=
  (SttResp.mk t (evalScore t e).1 (evalScore t e).2,
    { db with
      answers := recordAnswerRows db.answers iid q t
      scores := db.scores
        ++ [ScoreRow.mk iid (q.skill.getD "General") (evalScore t e).1 (q.maxScore.getD 5)] })

/-- Evaluated shape of `stt_endpoint` once the interview lookup
succeeded. -/
theorem stt_endpoint_found {db : DB} {uid iid : Nat} {itv : InterviewRow}
    (i : Int) (t : String) (e : Option (Int × String))
    (hfind : ownInterview db uid iid = some itv) :
    stt_endpoint db uid iid i t e =
      if (itv.questions.length : Int) ≤ i then .error .invalidIndex
      else
        match pyIndex itv.questions i with
        | none => .error .indexError
        | some q => .ok (sttResult db iid q t e) := by
  rw [stt_endpoint, hfind]
  rfl

/-- Evaluated shape of `question_page` once the interview lookup
succeeded. -/
theorem question_page_found {db : DB} {uid iid : Nat} {itv : InterviewRow} (i : Int)
    (hfind : ownInterview db uid iid = some itv) :
    question_page db uid iid i =
      if (itv.questions.length : Int) ≤ i then .ok (.redirectResult iid)
      else
        match pyIndex itv.questions i with
        | none => .error .indexError
        | some q => .ok (.page i q.question itv.questions.length) := by
  rw [question_page, hfind]

/-- Overall percentage recorded by the report endpoint for interview
`iid`, computed from the ScoreEntry rows. -/
def reportPct (db : DB) (iid : Nat) : ℚ :=
  let tot : Int := ((db.scores.filter (fun s => s.interview_id == iid)).map
    (fun s => s.score_total)).sum
  let ob : Int := ((db.scores.filter (fun s => s.interview_id == iid)).map
    (fun s => s.score_obtained)).sum
  if 0 < tot then (ob : ℚ) / (tot : ℚ) * 100 else 0

/-- Result pair of a successful `generate_report_api` call. -/
def reportResult (db : DB) (iid ts : Nat) : String × DB :=
  (pdfPath iid ts,
    { db with reports := db.reports
        ++ [ReportRow.mk iid (reportPct db iid) (pdfPath iid ts)] })

/-- Evaluated shape of `generate_report_api` once the interview lookup
succeeded. -/
theorem generate_report_found {db : DB} {uid iid : Nat} {itv : InterviewRow} (ts : Nat)
    (hfind : ownInterview db uid iid = some itv) :
    generate_report_api db uid iid ts = .ok (reportResult db iid ts) := by
  rw [generate_report_api, hfind]
  rfl

/-- C6: every interview-scoped operation (question page, answer
recording, result view, report generation) fails with `NotFound` when the
interview does not exist or belongs to a different caller; a successful
mutation implies the caller owns the interview and touches only that
interview's rows; and the two read operations are determined by the
caller's own rows. -/
theorem C6_ownership_isolation (db : DB) (uid iid : Nat) (i : Int) (t : String)
    (e : Option (Int × String)) (ts : Nat) :
    (ownInterview db uid iid = none →
      question_page db uid iid i = .error .notFound
      ∧ stt_endpoint db uid iid i t e = .error .notFound
      ∧ immediate_result db uid iid = .error .notFound
      ∧ generate_report_api db uid iid ts = .error .notFound)
    ∧ (∀ r db2, stt_endpoint db uid iid i t e = .ok (r, db2) →
        (∃ itv, ownInterview db uid iid = some itv ∧ itv.id = iid ∧ itv.user_id = uid)
        ∧ db2.interviews = db.interviews
        ∧ db2.reports = db.reports
        ∧ db2.answers.filter (fun a => a.interview_id != iid)
            = db.answers.filter (fun a => a.interview_id != iid)
        ∧ db2.scores.filter (fun s => s.interview_id != iid)
            = db.scores.filter (fun s => s.interview_id != iid))
    ∧ (∀ p db2, generate_report_api db uid iid ts = .ok (p, db2) →
        (∃ itv, ownInterview db uid iid = some itv ∧ itv.id = iid ∧ itv.user_id = uid)
        ∧ db2.interviews = db.interviews ∧ db2.answers = db.answers ∧ db2.scores = db.scores
        ∧ db2.reports.filter (fun r2 => r2.interview_id != iid)
            = db.reports.filter (fun r2 => r2.interview_id != iid))
    ∧ (∀ db2, ownInterview db2 uid iid = ownInterview db uid iid →
        question_page db2 uid iid i = question_page db uid iid i)
    ∧ (∀ db2, ownInterview db2 uid iid = ownInterview db uid iid →
        db2.scores.filter (fun s => s.interview_id == iid)
          = db.scores.filter (fun s => s.interview_id == iid) →
        immediate_result db2 uid iid = immediate_result db uid iid) := by
  refine ⟨?_, ?_, ?_, ?_, ?_⟩
  · intro h
    refine ⟨?_, ?_, ?_, ?_⟩ <;>
      simp [question_page, stt_endpoint, immediate_result, generate_report_api, h]
  · intro r db2 hok
    cases hfind : ownInterview db uid iid with
    | none =>
      rw [stt_endpoint, hfind] at hok
      exact absurd hok (by simp)
    | some itv =>
      rw [stt_endpoint_found i t e hfind] at hok
      by_cases hle : (itv.questions.length : Int) ≤ i
      · rw [if_pos hle] at hok
        exact absurd hok (by simp)
      · rw [if_neg hle] at hok
        cases hpi : pyIndex itv.questions i with
        | none =>
          rw [hpi] at hok
          exact absurd hok (by simp)
        | some q =>
          rw [hpi] at hok
          simp only [sttResult, Except.ok.injEq, Prod.mk.injEq] at hok
          obtain ⟨-, hdb⟩ := hok
          subst hdb
          obtain ⟨hid, huid⟩ := ownInterview_some hfind
          refine ⟨⟨itv, rfl, hid, huid⟩, rfl, rfl, ?_, ?_⟩
          · exact filter_recordAnswerRows_other db.answers iid q t
          · simp [sttResult, List.filter_append, bne]
  · intro p db2 hok
    cases hfind : ownInterview db uid iid with
    | none =>
      rw [generate_report_api, hfind] at hok
      exact absurd hok (by simp)
    | some itv =>
      rw [generate_report_found ts hfind] at hok
      simp only [reportResult, Except.ok.injEq, Prod.mk.injEq] at hok
      obtain ⟨-, hdb⟩ := hok
      subst hdb
      obtain ⟨hid, huid⟩ := ownInterview_some hfind
      refine ⟨⟨itv, rfl, hid, huid⟩, rfl, rfl, rfl, ?_⟩
      simp [List.filter_append, bne]
  · intro db2 hown
    rw [question_page, question_page, hown]
  · intro db2 hown hsc
    rw [immediate_result, immediate_result, hown, hsc]

theorem C6_witness :
    question_page db0 1 1 0 = .error .notFound
    ∧ stt_endpoint db0 1 1 0 "" none = .error .notFound
    ∧ immediate_result db0 1 1 = .error .notFound
    ∧ generate_report_api db0 1 1 0 = .error .notFound :=
  (C6_ownership_isolation db0 1 1 0 "" none 0).1 rfl

/-! ### Python indexing lemmas -/

theorem pyIndex_nonneg {α : Type} (l : List α) (i : Int) (h : 0 ≤ i) :
    pyIndex l i = l.get? i.toNat := by
  rw [pyIndex, if_pos h]

theorem pyIndex_neg {α : Type} (l : List α) {i : Int} (h1 : i < 0)
    (h2 : -(l.length : Int) ≤ i) :
    ∃ a, pyIndex l i = some a ∧ l.get? (l.length - (-i).toNat) = some a := by
  have hn : ¬ 0 ≤ i := by omega
  have hle : (-i).toNat ≤ l.length := by omega
  cases hx : l.get? (l.length - (-i).toNat) with
  | none =>
    exfalso
    rw [List.get?_eq_none] at hx
    omega
  | some a =>
    refine ⟨a, ?_, rfl⟩
    rw [pyIndex, if_neg hn, if_pos hle]
    exact hx

theorem pyIndex_neg_too_small {α : Type} (l : List α) {i : Int}
    (h : i < -(l.length : Int)) : pyIndex l i = none := by
  rw [pyIndex, if_neg (by omega), if_neg (by omega)]

theorem le_questions_false {itv : InterviewRow} {i : Int} {q : QuestionSpec}
    (hq : pyIndex itv.questions i = some q) :
    ¬ (itv.questions.length : Int) ≤ i := by
  by_cases h0 : 0 ≤ i
  · rw [pyIndex_nonneg _ _ h0] at hq
    have hlt : i.toNat < itv.questions.length := by
      by_contra hc
      rw [List.get?_eq_none.mpr (by omega)] at hq
      exact Option.noConfusion hq
    omega
  · omega

/-- C7, counterexample: an index below `-N` (here `-16` on a 15-question
interview) passes the only validation check `q_index >= len(questions)`
and then crashes with an unhandled `IndexError`, not the `InvalidIndex`
rejection the claim asserts for every out-of-range index. -/
theorem C7_counterexample :
    stt_endpoint dbP 1 1 (-16) "" none = .error .indexError
    ∧ stt_endpoint dbP 1 1 (-16) "" none ≠ .error .invalidIndex := by
  decide

/-- C7, amended: `getQuestion` with index `>= N` redirects to the result
view and `recordAnswer` then fails with `InvalidIndex`; an index below
`-N` instead raises an unhandled `IndexError`; and every index that
Python indexing resolves (`-N <= index <= N-1`) succeeds, overwriting the
Answer row for that question's text (creating it only when absent), so
the latest submission wins. -/
theorem C7_index_handling (db : DB) (uid iid : Nat) (i : Int) (t : String)
    (e : Option (Int × String)) (itv : InterviewRow)
    (hfind : ownInterview db uid iid = some itv) :
    ((itv.questions.length : Int) ≤ i →
      question_page db uid iid i = .ok (.redirectResult iid)
      ∧ stt_endpoint db uid iid i t e = .error .invalidIndex)
    ∧ (i < -(itv.questions.length : Int) →
      stt_endpoint db uid iid i t e = .error .indexError
      ∧ question_page db uid iid i = .error .indexError)
    ∧ (∀ q, pyIndex itv.questions i = some q →
      ∃ db2, stt_endpoint db uid iid i t e
          = .ok (SttResp.mk t (evalScore t e).1 (evalScore t e).2, db2)
        ∧ (∃ a, db2.answers.find? (answerKey iid q.question) = some a
            ∧ a.answer_text = some t)
        ∧ db2.answers.length = (if (db.answers.find? (answerKey iid q.question)).isSome
            then db.answers.length else db.answers.length + 1)) := by
  refine ⟨?_, ?_, ?_⟩
  · intro hle
    constructor
    · rw [question_page_found i hfind, if_pos hle]
    · rw [stt_endpoint_found i t e hfind, if_pos hle]
  · intro hlt
    have hle : ¬ (itv.questions.length : Int) ≤ i := by omega
    have hpi := pyIndex_neg_too_small itv.questions hlt
    constructor
    · rw [stt_endpoint_found i t e hfind, if_neg hle, hpi]
    · rw [question_page_found i hfind, if_neg hle, hpi]
  · intro q hq
    have hle := le_questions_false hq
    refine ⟨(sttResult db iid q t e).2, ?_, ?_, ?_⟩
    · rw [stt_endpoint_found i t e hfind, if_neg hle, hq]
      rfl
    · obtain ⟨a, hfd, hat, -, -⟩ := find?_recordAnswerRows_self db.answers iid q t
      exact ⟨a, hfd, hat⟩
    · exact recordAnswerRows_length db.answers iid q t

theorem C7_witness :
    question_page dbP 1 1 20 = .ok (.redirectResult 1)
    ∧ stt_endpoint dbP 1 1 20 "" none = .error .invalidIndex :=
  (C7_index_handling dbP 1 1 20 "" none itvP ownInterview_dbP).1 (by decide)

/-! ### Answer-uniqueness machinery (C8) -/

/-- At most one Answer row per (interview, question text). -/
def AnswersInv (db : DB) : Prop :=
  ∀ iid qt, ((db.answers.filter (answerKey iid qt)).length ≤ 1)

/-- Stored interview ids and answer foreign keys stay below the
autoincrement counter. -/
def WFids (db : DB) : Prop :=
  (∀ itv ∈ db.interviews, itv.id < db.nextInterviewId)
  ∧ (∀ a ∈ db.answers, a.interview_id < db.nextInterviewId)

/-- One workflow operation on the store: an interview start (with the
generated set's question texts pairwise distinct, which the fallback
always guarantees) or a successful answer recording. -/
inductive Step : DB → DB → Prop where
  | start (uid : Nat) (sk : Option (List String)) (gen : Option (List QuestionSpec))
      (iid n : Nat) (db db2 : DB) :
      (∀ qs, gen = some qs → (qs.map (fun q => q.question)).Nodup) →
      start_interview db uid sk gen = .ok (iid, n, db2) → Step db db2
  | record (uid iid : Nat) (i : Int) (t : String) (e : Option (Int × String))
      (r : SttResp) (db db2 : DB) :
      stt_endpoint db uid iid i t e = .ok (r, db2) → Step db db2

theorem start_interview_ok {db : DB} {uid : Nat} {sk : Option (List String)}
    {gen : Option (List QuestionSpec)} {iid n : Nat} {db2 : DB}
    (h : start_interview db uid sk gen = .ok (iid, n, db2)) :
    ∃ qs : List QuestionSpec,
      (gen = some qs ∨ (gen = none ∧ ∃ sl, qs = fallbackQuestions sl))
      ∧ iid = db.nextInterviewId
      ∧ db2 = { db with
          interviews := db.interviews ++ [InterviewRow.mk db.nextInterviewId uid qs]
          answers := db.answers ++ qs.map (fun q =>
            AnswerRow.mk db.nextInterviewId q.question none q.skill (q.maxScore.getD 5))
          nextInterviewId := db.nextInterviewId + 1 } := by
  cases sk with
  | none =>
    simp only [start_interview] at h
    exact absurd h (by simp)
  | some raw =>
    simp only [start_interview, Except.ok.injEq, Prod.mk.injEq] at h
    obtain ⟨h1, -, h3⟩ := h
    cases gen with
    | some parsed => exact ⟨parsed, Or.inl rfl, h1.symm, h3.symm⟩
    | none =>
      exact ⟨fallbackQuestions (if raw.isEmpty then ["General"] else raw),
        Or.inr ⟨rfl, _, rfl⟩, h1.symm, h3.symm⟩

theorem stt_endpoint_ok_shape {db : DB} {uid iid : Nat} {i : Int} {t : String}
    {e : Option (Int × String)} {r : SttResp} {db2 : DB}
    (hok : stt_endpoint db uid iid i t e = .ok (r, db2)) :
    ∃ itv q, ownInterview db uid iid = some itv ∧ pyIndex itv.questions i = some q
      ∧ db2 = (sttResult db iid q t e).2 := by
  cases hfind : ownInterview db uid iid with
  | none =>
    rw [stt_endpoint, hfind] at hok
    exact absurd hok (by simp)
  | some itv =>
    rw [stt_endpoint_found i t e hfind] at hok
    by_cases hle : (itv.questions.length : Int) ≤ i
    · rw [if_pos hle] at hok
      exact absurd hok (by simp)
    · rw [if_neg hle] at hok
      cases hpi : pyIndex itv.questions i with
      | none =>
        rw [hpi] at hok
        exact absurd hok (by simp)
      | some q =>
        rw [hpi] at hok
        simp only [Except.ok.injEq] at hok
        exact ⟨itv, q, rfl, hpi, (congrArg Prod.snd hok).symm⟩

theorem mem_updateFirst {α : Type} {p : α → Bool} {f : α → α} {l : List α} {b : α}
    (hb : b ∈ updateFirst p f l) : b ∈ l ∨ ∃ a ∈ l, b = f a := by
  induction l with
  | nil => exact absurd hb (by simp [updateFirst])
  | cons a as ih =>
    by_cases h : p a
    · rw [updateFirst, if_pos h] at hb
      rcases List.mem_cons.mp hb with h2 | h2
      · exact Or.inr ⟨a, by simp, h2⟩
      · exact Or.inl (List.mem_cons_of_mem a h2)
    · rw [updateFirst, if_neg h] at hb
      rcases List.mem_cons.mp hb with h2 | h2
      · exact Or.inl (by simp [h2])
      · rcases ih h2 with h3 | ⟨c, hc, h4⟩
        · exact Or.inl (List.mem_cons_of_mem a h3)
        · exact Or.inr ⟨c, List.mem_cons_of_mem a hc, h4⟩

theorem length_filter_updateFirst {α : Type} (p q : α → Bool) (f : α → α) (l : List α)
    (hqf : ∀ a, q (f a) = q a) :
    ((updateFirst p f l).filter q).length = (l.filter q).length := by
  induction l with
  | nil => rfl
  | cons a as ih =>
    by_cases h : p a
    · rw [updateFirst, if_pos h, List.filter_cons, List.filter_cons, hqf]
      by_cases hq : q a <;> simp [hq]
    · rw [updateFirst, if_neg h, List.filter_cons, List.filter_cons]
      by_cases hq : q a <;> simp [hq, ih]

theorem answers_inv_record {rows : List AnswerRow} {iid : Nat} {q : QuestionSpec} {t : String}
    (hinv : ∀ i2 q2, ((rows.filter (answerKey i2 q2)).length ≤ 1)) :
    ∀ i2 q2, (((recordAnswerRows rows iid q t).filter (answerKey i2 q2)).length ≤ 1) := by
  intro i2 q2
  cases hfind : rows.find? (answerKey iid q.question) with
  | none =>
    rw [recordAnswerRows_of_missing hfind, List.filter_append, List.length_append]
    by_cases hk : answerKey i2 q2 (AnswerRow.mk iid q.question (some t) q.skill (q.maxScore.getD 5))
    · have hkey : iid = i2 ∧ q.question = q2 := by
        rw [answerKey, Bool.and_eq_true, beq_iff_eq, beq_iff_eq] at hk
        exact hk
      obtain ⟨hi2, hq2⟩ := hkey
      subst hi2
      subst hq2
      have hempty : rows.filter (answerKey iid q.question) = [] := by
        rw [List.filter_eq_nil]
        intro a ha
        exact (List.find?_eq_none.mp hfind) a ha
      rw [hempty]
      simp [List.filter_cons, hk]
    · have : ([AnswerRow.mk iid q.question (some t) q.skill (q.maxScore.getD 5)].filter
          (answerKey i2 q2)) = [] := by
        simp only [List.filter_cons]
        rw [if_neg (by simpa using hk)]
        rfl
      rw [this]
      simpa using hinv i2 q2
  | some a0 =>
    rw [recordAnswerRows_of_found hfind,
      length_filter_updateFirst (answerKey iid q.question) (answerKey i2 q2)
        (fun a => { a with answer_text := some t }) rows (fun a => rfl)]
    exact hinv i2 q2

theorem wf_recordAnswerRows {rows : List AnswerRow} {iid nid : Nat} {q : QuestionSpec}
    {t : String} (hrows : ∀ a ∈ rows, a.interview_id < nid) (hiid : iid < nid) :
    ∀ a ∈ recordAnswerRows rows iid q t, a.interview_id < nid := by
  intro a ha
  cases hfind : rows.find? (answerKey iid q.question) with
  | none =>
    rw [recordAnswerRows_of_missing hfind] at ha
    rcases List.mem_append.mp ha with h | h
    · exact hrows a h
    · rw [List.mem_singleton] at h
      subst h
      exact hiid
  | some a0 =>
    rw [recordAnswerRows_of_found hfind] at ha
    rcases mem_updateFirst ha with h | ⟨b, hb, h2⟩
    · exact hrows a h
    · subst h2
      exact hrows b hb

theorem filter_answerKey_append_map {rows : List AnswerRow} {nid : Nat}
    {qs : List QuestionSpec} (hrows : ∀ a ∈ rows, a.interview_id < nid)
    (hnd : (qs.map (fun q => q.question)).Nodup)
    (hinv : ∀ iid qt, ((rows.filter (answerKey iid qt)).length ≤ 1)) :
    ∀ iid qt, (((rows ++ qs.map (fun q =>
        AnswerRow.mk nid q.question none q.skill (q.maxScore.getD 5))).filter
          (answerKey iid qt)).length ≤ 1) := by
  intro iid qt
  rw [List.filter_append, List.length_append]
  by_cases hiid : iid = nid
  · subst hiid
    have hold : rows.filter (answerKey iid qt) = [] := by
      rw [List.filter_eq_nil]
      intro a ha hk
      rw [answerKey, Bool.and_eq_true, beq_iff_eq] at hk
      have := hrows a ha
      omega
    rw [hold]
    have hnew : ((qs.map (fun q =>
        AnswerRow.mk iid q.question none q.skill (q.maxScore.getD 5))).filter
          (answerKey iid qt)).length
        = List.countP (fun x => x == qt) (qs.map (fun q => q.question)) := by
      rw [← List.countP_eq_length_filter, List.countP_map, List.countP_map]
      refine List.countP_congr ?_
      intro q _
      simp [answerKey, Function.comp]
    rw [List.length_nil, Nat.zero_add, hnew, ← List.count_eq_countP]
    exact List.nodup_iff_count_le_one.mp hnd qt
  · have hnew : ((qs.map (fun q =>
        AnswerRow.mk nid q.question none q.skill (q.maxScore.getD 5))).filter
          (answerKey iid qt)) = [] := by
      rw [List.filter_eq_nil]
      intro a ha hk
      rw [answerKey, Bool.and_eq_true, beq_iff_eq] at hk
      rcases List.mem_map.mp ha with ⟨q, -, h2⟩
      subst h2
      exact hiid hk.1.symm
    rw [hnew]
    simpa using hinv iid qt

theorem step_preserves {da dbb : DB} (hstep : Step da dbb)
    (hinv : AnswersInv da) (hwf : WFids da) : AnswersInv dbb ∧ WFids dbb := by
  cases hstep with
  | start uid sk gen iid n db db2 hnd hok =>
    obtain ⟨qs, hqs, -, hdb2⟩ := start_interview_ok hok
    have hndq : (qs.map (fun q => q.question)).Nodup := by
      rcases hqs with h | ⟨-, sl, hfb⟩
      · exact hnd qs h
      · rw [hfb]
        exact fallbackQuestions_question_nodup sl
    subst hdb2
    refine ⟨?_, ?_, ?_⟩
    · intro i2 q2
      exact filter_answerKey_append_map (fun a ha => hwf.2 a ha) hndq hinv i2 q2
    · intro itv hm
      rcases List.mem_append.mp hm with h | h
      · have := hwf.1 itv h
        show itv.id < da.nextInterviewId + 1
        omega
      · rw [List.mem_singleton] at h
        subst h
        show da.nextInterviewId < da.nextInterviewId + 1
        omega
    · intro a ha
      rcases List.mem_append.mp ha with h | h
      · have := hwf.2 a h
        show a.interview_id < da.nextInterviewId + 1
        omega
      · rcases List.mem_map.mp h with ⟨q, -, h2⟩
        subst h2
        show da.nextInterviewId < da.nextInterviewId + 1
        omega
  | record uid iid i t e r db db2 hok =>
    obtain ⟨itv, q, hfind, -, hdb2⟩ := stt_endpoint_ok_shape hok
    subst hdb2
    have hiid_lt : iid < da.nextInterviewId := by
      have hmem := List.mem_of_find?_eq_some hfind
      have hid := (ownInterview_some hfind).1
      have := hwf.1 itv hmem
      omega
    refine ⟨?_, hwf.1, ?_⟩
    · intro i2 q2
      exact answers_inv_record hinv i2 q2
    · intro a ha
      exact wf_recordAnswerRows hwf.2 hiid_lt a ha

/-- Dummy duplicate-question item used by the C8 counterexample. -/
def qDup : QuestionSpec := QuestionSpec.mk "Q" (some "Python") (some 5)

/-- The store after a start whose (unvalidated) generated set repeats one
question text. -/
def dbDup : DB :=
  match start_interview db0 1 (some ["Python"]) (some [qDup, qDup]) with
  | .ok x => x.2.2
  | .error _ => db0

/-- C8, counterexample: starting an interview whose generated JSON array
repeats a question text inserts one Answer row per item, leaving two
Answer rows with the same question text in one interview. -/
theorem C8_counterexample :
    start_interview db0 1 (some ["Python"]) (some [qDup, qDup]) = .ok (1, 2, dbDup)
    ∧ (dbDup.answers.filter (answerKey 1 "Q")).length = 2 := by
  decide

/-- C8, amended: from any store satisfying the at-most-one-Answer-per-
question-text invariant (with well-formed ids), any sequence of interview
starts whose generated question sets have pairwise-distinct question
texts — the fallback set always does — and of successful answer
recordings preserves the invariant; recording updates the existing row
rather than inserting a second one. -/
theorem C8_answers_unique (db db2 : DB) (hinv : AnswersInv db) (hwf : WFids db)
    (hsteps : Relation.ReflTransGen Step db db2) : AnswersInv db2 ∧ WFids db2 := by
  induction hsteps with
  | refl => exact ⟨hinv, hwf⟩
  | tail hab hstep ih => exact step_preserves hstep ih.1 ih.2

theorem C8_witness : AnswersInv dbP ∧ WFids dbP :=
  C8_answers_unique db0 dbP
    (fun i2 q2 => by simp [db0, AnswersInv])
    (⟨fun itv h => absurd h (by simp [db0]), fun a h => absurd h (by simp [db0])⟩)
    (Relation.ReflTransGen.single
      (Step.start 1 (some ["Python"]) none 1 15 db0 dbP
        (fun qs h => Option.noConfusion h) (by decide)))

/-- C9, counterexample: two report generations whose calls observe the
same integer-second timestamp produce the same artifact path (the second
silently overwrites the first file), refuting "two distinct artifact
paths". -/
theorem C9_counterexample :
    generate_report_api dbP 1 1 1000 = .ok (reportResult dbP 1 1000)
    ∧ generate_report_api (reportResult dbP 1 1000).2 1 1 1000
        = .ok (reportResult (reportResult dbP 1 1000).2 1 1000)
    ∧ (reportResult dbP 1 1000).1 = (reportResult (reportResult dbP 1 1000).2 1 1000).1 := by
  refine ⟨?_, ?_, rfl⟩
  · exact generate_report_found 1000 ownInterview_dbP
  · exact generate_report_found 1000 (show ownInterview (reportResult dbP 1 1000).2 1 1
      = some itvP from ownInterview_dbP)

/-- C9, amended: generating the report twice on the same interview with
ScoreEntry data unchanged records the identical overallScore in both
Report records; the two artifact paths are distinct exactly when the two
calls observe different integer-second timestamps (same-second calls
produce the same path). -/
theorem C9_report_regeneration (db : DB) (uid iid t1 t2 : Nat)
    (itv : InterviewRow) (hfind : ownInterview db uid iid = some itv) :
    ∃ db1 db2,
      generate_report_api db uid iid t1 = .ok (pdfPath iid t1, db1)
      ∧ generate_report_api db1 uid iid t2 = .ok (pdfPath iid t2, db2)
      ∧ db2.reports = db.reports
          ++ [ReportRow.mk iid (reportPct db iid) (pdfPath iid t1),
              ReportRow.mk iid (reportPct db iid) (pdfPath iid t2)]
      ∧ (pdfPath iid t1 = pdfPath iid t2 ↔ t1 = t2) := by
  refine ⟨(reportResult db iid t1).2, (reportResult (reportResult db iid t1).2 iid t2).2,
    ?_, ?_, ?_, ?_, ?_⟩
  · exact generate_report_found t1 hfind
  · exact generate_report_found t2
      (show ownInterview (reportResult db iid t1).2 uid iid = some itv from hfind)
  · show ((reportResult db iid t1).2.reports
        ++ [ReportRow.mk iid (reportPct (reportResult db iid t1).2 iid) (pdfPath iid t2)])
      = _
    simp [reportResult, reportPct, List.append_assoc]
  · exact fun h => pdfPath_inj_ts h
  · intro h
    rw [h]

theorem C9_witness :
    ∃ db1 db2,
      generate_report_api dbP 1 1 5 = .ok (pdfPath 1 5, db1)
      ∧ generate_report_api db1 1 1 6 = .ok (pdfPath 1 6, db2)
      ∧ db2.reports = dbP.reports
          ++ [ReportRow.mk 1 (reportPct dbP 1) (pdfPath 1 5),
              ReportRow.mk 1 (reportPct dbP 1) (pdfPath 1 6)]
      ∧ (pdfPath 1 5 = pdfPath 1 6 ↔ 5 = 6) :=
  C9_report_regeneration dbP 1 1 5 6 itvP ownInterview_dbP

/-- C10, counterexample: a negative index below `-N` is not served — both
the question page and answer recording abort with an unhandled
`IndexError` — so "for every negative index value, getQuestion and
recordAnswer do not reject the request" fails. -/
theorem C10_counterexample :
    question_page dbP 1 1 (-16) = .error .indexError
    ∧ stt_endpoint dbP 1 1 (-17) "" none = .error .indexError := by
  decide

/-- C10, amended: every negative index passes the only validation check
`q_index >= len(questions)`; an index in `[-N, -1]` resolves from the end
of the question list — in particular index `-1` records an answer for the
last question and appends a ScoreEntry for it — while an index below `-N`
raises an unhandled `IndexError` instead of being served. -/
theorem C10_negative_indexing (db : DB) (uid iid : Nat) (t : String)
    (e : Option (Int × String)) (itv : InterviewRow)
    (hfind : ownInterview db uid iid = some itv) :
    (∀ i : Int, i < 0 →
      question_page db uid iid i ≠ .ok (.redirectResult iid)
      ∧ stt_endpoint db uid iid i t e ≠ .error .invalidIndex)
    ∧ (∀ i : Int, i < 0 → -(itv.questions.length : Int) ≤ i →
      ∃ q db2, itv.questions.get? (itv.questions.length - (-i).toNat) = some q
        ∧ stt_endpoint db uid iid i t e
            = .ok (SttResp.mk t (evalScore t e).1 (evalScore t e).2, db2)
        ∧ db2.scores = db.scores
            ++ [ScoreRow.mk iid (q.skill.getD "General") (evalScore t e).1 (q.maxScore.getD 5)])
    ∧ (itv.questions ≠ [] →
      ∃ qlast db2, itv.questions.getLast? = some qlast
        ∧ stt_endpoint db uid iid (-1) t e
            = .ok (SttResp.mk t (evalScore t e).1 (evalScore t e).2, db2)
        ∧ db2.scores = db.scores
            ++ [ScoreRow.mk iid (qlast.skill.getD "General") (evalScore t e).1
                  (qlast.maxScore.getD 5)]
        ∧ (∃ a, db2.answers.find? (answerKey iid qlast.question) = some a
            ∧ a.answer_text = some t)) := by
  have hmain : ∀ i : Int, i < 0 → -(itv.questions.length : Int) ≤ i →
      ∃ q db2, itv.questions.get? (itv.questions.length - (-i).toNat) = some q
        ∧ stt_endpoint db uid iid i t e
            = .ok (SttResp.mk t (evalScore t e).1 (evalScore t e).2, db2)
        ∧ db2.scores = db.scores
            ++ [ScoreRow.mk iid (q.skill.getD "General") (evalScore t e).1 (q.maxScore.getD 5)]
        ∧ db2.answers = recordAnswerRows db.answers iid q t := by
    intro i h1 h2
    obtain ⟨q, hpi, hget⟩ := pyIndex_neg itv.questions h1 h2
    have hle : ¬ (itv.questions.length : Int) ≤ i := by omega
    refine ⟨q, (sttResult db iid q t e).2, hget, ?_, rfl, rfl⟩
    rw [stt_endpoint_found i t e hfind, if_neg hle, hpi]
    rfl
  refine ⟨?_, ?_, ?_⟩
  · intro i hneg
    have hle : ¬ (itv.questions.length : Int) ≤ i := by omega
    constructor
    · rw [question_page_found i hfind, if_neg hle]
      cases hpi : pyIndex itv.questions i <;> simp
    · rw [stt_endpoint_found i t e hfind, if_neg hle]
      cases hpi : pyIndex itv.questions i <;> simp
  · intro i h1 h2
    obtain ⟨q, db2, hget, hok, hsc, -⟩ := hmain i h1 h2
    exact ⟨q, db2, hget, hok, hsc⟩
  · intro hne
    have hlen : 0 < itv.questions.length := List.length_pos.mpr hne
    obtain ⟨q, db2, hget, hok, hsc, hans⟩ := hmain (-1) (by omega) (by omega)
    have hlast : itv.questions.getLast? = some q := by
      rw [List.getLast?_eq_get?]
      simpa using hget
    refine ⟨q, db2, hlast, hok, hsc, ?_⟩
    obtain ⟨a, hfd, hat, -, -⟩ := find?_recordAnswerRows_self db.answers iid q t
    rw [hans]
    exact ⟨a, hfd, hat⟩

theorem C10_witness :
    ∃ qlast db2, (fallbackQuestions ["Python"]).getLast? = some qlast
      ∧ stt_endpoint dbP 1 1 (-1) "my answer" none
          = .ok (SttResp.mk "my answer" (evalScore "my answer" none).1
              (evalScore "my answer" none).2, db2)
      ∧ db2.scores = dbP.scores
          ++ [ScoreRow.mk 1 (qlast.skill.getD "General") (evalScore "my answer" none).1
                (qlast.maxScore.getD 5)]
      ∧ (∃ a, db2.answers.find? (answerKey 1 qlast.question) = some a
          ∧ a.answer_text = some "my answer") :=
  (C10_negative_indexing dbP 1 1 "my answer" none itvP ownInterview_dbP).2.2 (by decide)

end Tyrion
